import Mathlib

/-!
# Verification of the smartRecruiter scoring / learning / fairness core

Shallow embedding, over `ℚ`, of the parts of the repository that the claims
concern:

* `ai/utils.py` — `combine_scores` (hybrid combiner);
* `backend/app/services/learning_service.py` — `AdaptiveWeightLearner`
  (`get_weights`, `update_weights`, `_simple_weight_update`, `_save_weights`);
* `backend/app/services/scoring_service.py` — Stage 4 of
  `ScoringService.calculate_scores` (final weighted overall score);
* `ai/evaluation/fairness_checker.py` — `FairnessChecker.audit_fairness`;
* `ai/evaluation/evaluator.py` — `_parse_llm_response`, `_normalize_score`.

Python floats are modelled as rationals; the Python `round(x, nd)`
(round-half-to-even on the scaled value) is modelled exactly by `pyRound`.
Library calls that are opaque to the repository (the fitted sklearn
coefficients, the scipy t-test p-value) are abstracted as explicit function
parameters; database rows are a list of records.
-/

namespace SmartRecruiter

/-- The Python `round` to an integer: round half to even (half-to-even rounding). -/
def pyRoundInt (x : ℚ) : ℤ :=
  if x - ⌊x⌋ < 1/2 then ⌊x⌋
  else if 1/2 < x - ⌊x⌋ then ⌊x⌋ + 1
  else if Even ⌊x⌋ then ⌊x⌋ else ⌊x⌋ + 1

/-- The Python `round(x, nd)`: round half to even at `nd` decimal digits. -/
def pyRound (x : ℚ) (nd : ℕ) : ℚ :=
  (pyRoundInt (x * 10 ^ nd) : ℚ) / 10 ^ nd

/-- Model of `ai/utils.py` `combine_scores`: weighted average of the semantic and the
LLM score, rounded to two decimals (the Python default for `semantic_weight`
is `0.5`; the weight is passed explicitly here). -/
def combine_scores (semantic_score llm_score : ℚ) (semantic_weight : ℚ) : ℚ :=
  let llm_weight := 1 - semantic_weight
  let combined := semantic_weight * semantic_score + llm_weight * llm_score
  pyRound combined 2

/-- The four adaptive scoring weights
(`skill_weight`, `experience_weight`, `education_weight`,
`semantic_similarity_weight`). -/
structure WeightVector where
  skill : ℚ
  experience : ℚ
  education : ℚ
  semantic : ℚ
deriving DecidableEq, Repr

/-- Model of `learning_service.py` `DEFAULT_WEIGHTS`. -/
def DEFAULT_WEIGHTS : WeightVector :=
  { skill := 4/10, experience := 3/10, education := 1/10, semantic := 2/10 }

/-- Sum of the four components of a weight vector. -/
def WeightVector.total (w : WeightVector) : ℚ :=
  w.skill + w.experience + w.education + w.semantic

/-- All four components of a weight vector are non-negative. -/
def WeightVector.Nonneg (w : WeightVector) : Prop :=
  0 ≤ w.skill ∧ 0 ≤ w.experience ∧ 0 ≤ w.education ∧ 0 ≤ w.semantic

instance (w : WeightVector) : Decidable w.Nonneg := by
  unfold WeightVector.Nonneg; infer_instance

/-- A row of the `ScoringWeights` table: a weight vector stored under a
`(recruiter_id, job_id)` scope, `none` standing for SQL `NULL`. -/
structure ScoringWeights where
  recruiter_id : Option ℤ
  job_id : Option ℤ
  weights : WeightVector
  iteration_count : ℕ
deriving DecidableEq, Repr

/-- The `ScoringWeights` table, in insertion order (`query(...).first()` takes
the first matching row, `db.add` appends). -/
abbrev WeightsDB := List ScoringWeights

/-- Python truthiness of an optional integer id: `None` and `0` are falsy. -/
def truthy : Option ℤ → Bool
  | some n => n ≠ 0
  | none => false

/-- Model of `query(ScoringWeights).filter(recruiter_id == r, job_id == j).first()`,
where a `none` argument stands for an `.is_(None)` filter. -/
def queryScope (db : WeightsDB) (r j : Option ℤ) : Option ScoringWeights :=
  db.find? (fun row => row.recruiter_id = r ∧ row.job_id = j)

/-- The single scope that `get_weights` / `_save_weights` select from the
truthiness of their arguments (the shared `if recruiter_id and job_id /
elif recruiter_id / elif job_id / else` chain). -/
def scopeFilter (recruiter_id job_id : Option ℤ) : Option ℤ × Option ℤ :=
  if truthy recruiter_id ∧ truthy job_id then (recruiter_id, job_id)
  else if truthy recruiter_id then (recruiter_id, none)
  else if truthy job_id then (none, job_id)
  else (none, none)

/-- Model of `AdaptiveWeightLearner.get_weights`: look up the single scope selected by
argument truthiness and fall back to `DEFAULT_WEIGHTS` when that scope has no
stored row. -/
def get_weights (db : WeightsDB) (recruiter_id job_id : Option ℤ) : WeightVector :=
  let found :=
    if truthy recruiter_id ∧ truthy job_id then
      queryScope db recruiter_id job_id
    else if truthy recruiter_id then
      queryScope db recruiter_id none
    else if truthy job_id then
      queryScope db none job_id
    else
      queryScope db none none
  match found with
  | some row => row.weights
  | none => DEFAULT_WEIGHTS

/-- Replace the weights of the first row matching scope `(r, j)`,
incrementing its `iteration_count`. -/
def updateFirst (db : WeightsDB) (r j : Option ℤ) (w : WeightVector) : WeightsDB :=
  match db with
  | [] => []
  | row :: rest =>
    if row.recruiter_id = r ∧ row.job_id = j then
      { row with weights := w, iteration_count := row.iteration_count + 1 } :: rest
    else
      row :: updateFirst rest r j w

/-- Model of `AdaptiveWeightLearner._save_weights`: update the first row of the scope
selected by argument truthiness, or append a new row built from the raw
arguments with `iteration_count = 1`. -/
def save_weights (db : WeightsDB) (w : WeightVector)
    (recruiter_id job_id : Option ℤ) : WeightsDB :=
  let scope := scopeFilter recruiter_id job_id
  match queryScope db scope.1 scope.2 with
  | some _ => updateFirst db scope.1 scope.2 w
  | none =>
      db ++ [{ recruiter_id := recruiter_id, job_id := job_id,
               weights := w, iteration_count := 1 }]

/-- A feedback entry as consumed by `update_weights`: the fields the code
reads from each dictionary with `entry.get`.  `ai_score` and `hired` carry the
`get` defaults (`0` and `False`) for an absent key; the four component scores
are optional because their defaults are computed from `ai_score`. -/
structure FeedbackEntry where
  ai_score : ℚ
  hired : Bool
  skill_score : Option ℚ
  experience_score : Option ℚ
  education_score : Option ℚ
  semantic_score : Option ℚ
deriving DecidableEq, Repr

/-- Model of `entry.get("skill_score", ai_score * 0.4)` (with the actual quoting of the source). -/
def featSkill (e : FeedbackEntry) : ℚ := e.skill_score.getD (e.ai_score * (4/10))

/-- Model of `entry.get("experience_score", ai_score * 0.3)`. -/
def featExp (e : FeedbackEntry) : ℚ := e.experience_score.getD (e.ai_score * (3/10))

/-- Model of `entry.get("education_score", ai_score * 0.1)`. -/
def featEdu (e : FeedbackEntry) : ℚ := e.education_score.getD (e.ai_score * (1/10))

/-- Model of `entry.get("semantic_score", ai_score * 0.2)`. -/
def featSem (e : FeedbackEntry) : ℚ := e.semantic_score.getD (e.ai_score * (2/10))

/-- The four coefficients returned by `LinearRegression().fit(X, y).coef_`. -/
structure Coeffs where
  c0 : ℚ
  c1 : ℚ
  c2 : ℚ
  c3 : ℚ
deriving DecidableEq, Repr

/-- The fitting step of the sklearn `LinearRegression`, abstracted: a function
from the design matrix `X` (rows `[skill, experience, education, semantic]`)
and the label vector `y` to the fitted coefficients. -/
abbrev FitFun := List (ℚ × ℚ × ℚ × ℚ) → List ℚ → Coeffs

/-- Model of `np.abs(coefficients) / np.sum(np.abs(coefficients))` when the total is
positive, else the `[0.4, 0.3, 0.1, 0.2]` fallback. -/
def normalizeAbsCoeffs (c : Coeffs) : WeightVector :=
  let total := |c.c0| + |c.c1| + |c.c2| + |c.c3|
  if 0 < total then
    { skill := |c.c0| / total, experience := |c.c1| / total,
      education := |c.c2| / total, semantic := |c.c3| / total }
  else
    { skill := 4/10, experience := 3/10, education := 1/10, semantic := 2/10 }

/-- Model of `current * (1 - learning_rate) + learned * learning_rate`, componentwise. -/
def blend (current learned : WeightVector) (lr : ℚ) : WeightVector :=
  { skill := current.skill * (1 - lr) + learned.skill * lr,
    experience := current.experience * (1 - lr) + learned.experience * lr,
    education := current.education * (1 - lr) + learned.education * lr,
    semantic := current.semantic * (1 - lr) + learned.semantic * lr }

/-- The `total = sum(...); if total > 0: divide each entry by total`
renormalization step shared by both update strategies. -/
def renormalize (w : WeightVector) : WeightVector :=
  let total := w.total
  if 0 < total then
    { skill := w.skill / total, experience := w.experience / total,
      education := w.education / total, semantic := w.semantic / total }
  else w

/-- Mean of a list of rationals (`np.mean`); `0/0 = 0` on the empty list,
which the code never hits because it guards on non-emptiness. -/
def listMean (l : List ℚ) : ℚ := l.sum / l.length

/-- Model of `AdaptiveWeightLearner._simple_weight_update`: the rule-based fallback.
Partitions the batch into hired / not-hired; when both parts are non-empty,
shifts each weight by the mean-score difference times `learning_rate / 100`
(zero when numpy is unavailable), clamps each weight to its band, renormalizes
and saves under the global scope `(None, None)`; otherwise returns the current
weights without writing.  Returns the resulting weights and the new table. -/
def simple_weight_update (numpyAvailable : Bool) (db : WeightsDB)
    (feedback : List FeedbackEntry) (current : WeightVector) (lr : ℚ) :
    WeightVector × WeightsDB :=
  let hired := feedback.filter (fun e => e.hired)
  let notHired := feedback.filter (fun e => ¬ e.hired)
  if hired ≠ [] ∧ notHired ≠ [] then
    let skillDiff := if numpyAvailable then
      listMean (hired.map featSkill) - listMean (notHired.map featSkill) else 0
    let expDiff := if numpyAvailable then
      listMean (hired.map featExp) - listMean (notHired.map featExp) else 0
    let eduDiff := if numpyAvailable then
      listMean (hired.map featEdu) - listMean (notHired.map featEdu) else 0
    let semDiff := if numpyAvailable then
      listMean (hired.map featSem) - listMean (notHired.map featSem) else 0
    let clamped : WeightVector :=
      { skill := max (1/10) (min (6/10) (current.skill + skillDiff * lr / 100)),
        experience := max (1/10) (min (6/10) (current.experience + expDiff * lr / 100)),
        education := max (5/100) (min (3/10) (current.education + eduDiff * lr / 100)),
        semantic := max (1/10) (min (5/10) (current.semantic + semDiff * lr / 100)) }
    let nw := renormalize clamped
    (nw, save_weights db nw none none)
  else
    (current, db)

/-- Model of `AdaptiveWeightLearner.update_weights`.  Fewer than two samples: return
the resolved weights, no write.  With sklearn and numpy available, the
regression strategy: build `X` and `y`, fit (abstracted as `fit`), take the
normalized absolute coefficients, blend with the current weights at
`learning_rate`, renormalize, save under the requested scope.  Otherwise the
rule-based fallback.  Returns the resulting weights and the new table. -/
def update_weights (fit : FitFun) (sklearnAvailable numpyAvailable : Bool)
    (db : WeightsDB) (feedback : List FeedbackEntry)
    (recruiter_id job_id : Option ℤ) (lr : ℚ) : WeightVector × WeightsDB :=
  if feedback.length < 2 then
    (get_weights db recruiter_id job_id, db)
  else
    let current := get_weights db recruiter_id job_id
    if ¬ (sklearnAvailable ∧ numpyAvailable) then
      simple_weight_update numpyAvailable db feedback current lr
    else
      let X := feedback.map (fun e => (featSkill e, featExp e, featEdu e, featSem e))
      let y := feedback.map (fun e => if e.hired then (1 : ℚ) else 0)
      let learned := normalizeAbsCoeffs (fit X y)
      let nw := renormalize (blend current learned lr)
      (nw, save_weights db nw recruiter_id job_id)

/-- The regression strategy as §4.6 of the specification words it: fit a
linear model predicting the binary hired label from
`[skill, experience, education, semantic]`, take the absolute values of the
fitted coefficients and normalize them to sum to `1`, blend
`new = current * (1 - learning_rate) + learned * learning_rate`, renormalize
the blend to sum `1`, and persist under the requested scope.  Written from
the sentences of the specification, to be compared with `update_weights`. -/
def regressionUpdateSpec (fit : FitFun) (db : WeightsDB)
    (feedback : List FeedbackEntry) (recruiter_id job_id : Option ℤ)
    (lr : ℚ) : WeightVector × WeightsDB :=
  let current := get_weights db recruiter_id job_id
  let X := feedback.map (fun e => (featSkill e, featExp e, featEdu e, featSem e))
  let y := feedback.map (fun e => if e.hired then (1 : ℚ) else 0)
  let c := fit X y
  let absTotal := |c.c0| + |c.c1| + |c.c2| + |c.c3|
  let learned : WeightVector :=
    { skill := |c.c0| / absTotal, experience := |c.c1| / absTotal,
      education := |c.c2| / absTotal, semantic := |c.c3| / absTotal }
  let blended := blend current learned lr
  let nw : WeightVector :=
    { skill := blended.skill / blended.total,
      experience := blended.experience / blended.total,
      education := blended.education / blended.total,
      semantic := blended.semantic / blended.total }
  (nw, save_weights db nw recruiter_id job_id)

/-- Stage 4 of `ScoringService.calculate_scores` (the value of the
`overall_score` variable, before the two-decimal rounding applied when
building the response dictionary).  `storeOk = false` models the `except`
branch around the Weight-Store read (a database error raised inside
`get_weights`); `useAdaptive` and `hasDb` model `use_adaptive_weights` and
`self.db` being set. -/
def calculateOverallScore (db : WeightsDB) (storeOk useAdaptive hasDb : Bool)
    (recruiter_id job_id : Option ℤ)
    (hybrid_skill hybrid_experience education_score hybrid_overall : ℚ) : ℚ :=
  if useAdaptive ∧ hasDb then
    if storeOk then
      let w := get_weights db recruiter_id job_id
      hybrid_skill * w.skill + hybrid_experience * w.experience +
        education_score * w.education + hybrid_overall * w.semantic
    else
      hybrid_overall * (35/100) + hybrid_skill * (30/100) +
        hybrid_experience * (25/100) + education_score * (1/10)
  else
    hybrid_overall * (35/100) + hybrid_skill * (30/100) +
      hybrid_experience * (25/100) + education_score * (1/10)

/-- One row of the `candidate_data` passed to the fairness auditor: the value
under `group_key` and the value under `score_key`.  Group labels (strings in
the source, e.g. `"stem"`) are abstracted as naturals, which carry the
equality and the total order the auditor uses of them. -/
structure Candidate where
  group : ℕ
  score : ℚ
deriving DecidableEq, Repr

/-- The distinct group labels, in the sorted order of a pandas `groupby`
index. -/
def groupsOf (data : List Candidate) : List ℕ :=
  ((data.map (fun c => c.group)).dedup).insertionSort (· ≤ ·)

/-- The scores of one group. -/
def groupScores (data : List Candidate) (g : ℕ) : List ℚ :=
  (data.filter (fun c => c.group = g)).map (fun c => c.score)

/-- The mean score of one group (`groupby(group_key)[score_key].mean()`). -/
def groupMean (data : List Candidate) (g : ℕ) : ℚ :=
  listMean (groupScores data g)

/-- Maximum of a list of rationals, `0` on the empty list (never consulted on
an empty list by the auditor, which guards on batch size). -/
def listMax : List ℚ → ℚ
  | [] => 0
  | x :: xs => xs.foldl max x

/-- Minimum of a list of rationals, `0` on the empty list. -/
def listMin : List ℚ → ℚ
  | [] => 0
  | x :: xs => xs.foldl min x

/-- Model of `group_means.idxmax()`: the first group (in index order) whose mean
attains the maximum. -/
def argmaxGroup (data : List Candidate) : ℕ :=
  match (groupsOf data).map (fun g => (g, groupMean data g)) with
  | [] => 0
  | p :: ps => (ps.foldl (fun acc q => if acc.2 < q.2 then q else acc) p).1

/-- Model of `group_means.idxmin()`: the first group (in index order) whose mean
attains the minimum. -/
def argminGroup (data : List Candidate) : ℕ :=
  match (groupsOf data).map (fun g => (g, groupMean data g)) with
  | [] => 0
  | p :: ps => (ps.foldl (fun acc q => if q.2 < acc.2 then q else acc) p).1

/-- The fields of the audit result that the claims are about. -/
structure AuditResult where
  bias_detected : Bool
  bias_magnitude : ℚ
  statistical_significance : ℚ
deriving DecidableEq, Repr

/-- Model of `FairnessChecker.audit_fairness`, numeric core.  `pandasAvailable` models
the `PANDAS_AVAILABLE` probe; `scipyTT` abstracts `scipy.stats.ttest_ind` as
the p-value it returns for the two score samples, `none` meaning scipy is
unavailable so the numpy mean-difference proxy is used.  Batches of fewer
than two rows, and the pandas-unavailable case, return the all-zero
insufficient-data result. -/
def audit_fairness (pandasAvailable : Bool) (scipyTT : Option (List ℚ → List ℚ → ℚ))
    (data : List Candidate) (threshold : ℚ) : AuditResult :=
  if data.length < 2 then
    { bias_detected := false, bias_magnitude := 0, statistical_significance := 0 }
  else if ¬ pandasAvailable then
    { bias_detected := false, bias_magnitude := 0, statistical_significance := 0 }
  else
    let means := (groupsOf data).map (groupMean data)
    let bias_magnitude := listMax means - listMin means
    let bias_detected := decide (threshold < bias_magnitude)
    let sig :=
      if 2 ≤ means.length then
        let maxScores := groupScores data (argmaxGroup data)
        let minScores := groupScores data (argminGroup data)
        if 1 < maxScores.length ∧ 1 < minScores.length then
          match scipyTT with
          | some tt => 1 - tt maxScores minScores
          | none => min (95/100) (|listMean maxScores - listMean minScores| / 100)
        else (1 : ℚ)/2
      else (1 : ℚ)/2
    { bias_detected := bias_detected,
      bias_magnitude := pyRound bias_magnitude 2,
      statistical_significance := pyRound sig 3 }

/-- Modelled from the spec: `FairnessChecker.comprehensive_fairness_audit` is
called by `backend/app/routers/fairness.py` and by the tests but its
definition is not under `src/`; §4.7 specifies the Disparate Impact Ratio it
computes.  Pass rate of one group at `pass_threshold`: the fraction of the
scores of the group that reach the threshold. -/
def passRate (data : List Candidate) (g : ℕ) (pass_threshold : ℚ) : ℚ :=
  let s := groupScores data g
  ((s.filter (fun x => pass_threshold ≤ x)).length : ℚ) / s.length

/-- Modelled from the spec: the Disparate Impact Ratio of
`comprehensive_fairness_audit` (absent from `src/`), per §4.7: "the ratio of
the pass rate of the lowest-performing group to the pass rate of the
highest-performing group at a given `pass_threshold`". -/
def disparate_impact_ratio (data : List Candidate) (pass_threshold : ℚ) : ℚ :=
  let rates := (groupsOf data).map (fun g => passRate data g pass_threshold)
  listMin rates / listMax rates

/-- The values a parsed JSON field can take, as far as
`_normalize_score` distinguishes them: a JSON number; a string that
`float(...)` parses to some value; a string it rejects (`ValueError`); a
boolean (`float(True) = 1.0`); `null` or a composite value (`TypeError`). -/
inductive JVal where
  | num (q : ℚ)
  | numStr (q : ℚ)
  | badStr
  | jbool (b : Bool)
  | jnull
  | composite
deriving DecidableEq, Repr

/-- Model of `int(q)` on a Python float: truncation toward zero. -/
def truncToInt (q : ℚ) : ℤ := q.num / (q.den : ℤ)

/-- Model of `CandidateEvaluator._normalize_score`: `int(float(score))` clamped to
`[0, 100]`, and `50` on `ValueError` / `TypeError`. -/
def normalize_score (v : JVal) : ℤ :=
  match v with
  | .num q => max 0 (min 100 (truncToInt q))
  | .numStr q => max 0 (min 100 (truncToInt q))
  | .badStr => 50
  | .jbool b => max 0 (min 100 (if b then (1 : ℤ) else 0))
  | .jnull => 50
  | .composite => 50

/-- The outcome of `json.loads` on the cleaned response, when it succeeds
with an object: the values found under the three score keys (`none` = key
absent). -/
structure ParsedJson where
  overall_score : Option JVal
  experience_score : Option JVal
  skill_score : Option JVal
deriving DecidableEq, Repr

/-- The outcome of the three `re.search` salvage patterns of the form `"<field>": (digits)`
salvage calls: the captured digit strings, as natural numbers (`none` = no
match). -/
structure RegexSalvage where
  overall : Option ℕ
  experience : Option ℕ
  skill : Option ℕ
deriving DecidableEq, Repr

/-- The numeric fields of the judgment vector returned by
`_parse_llm_response`. -/
structure Judgment where
  overall_score : ℤ
  experience_score : ℤ
  skill_score : ℤ
deriving DecidableEq, Repr

/-- Model of `CandidateEvaluator._parse_llm_response`: when structured JSON parsing
succeeds (`parsed = some r`) each field is `_normalize_score` of the value
under its key, defaulting to `50` for an absent key; when it fails
(`parsed = none`, `json.JSONDecodeError`) each field is the raw integer the
regex salvage captured, or `50` when the pattern did not match. -/
def parse_llm_response (parsed : Option ParsedJson) (salvage : RegexSalvage) :
    Judgment :=
  match parsed with
  | some r =>
    { overall_score := normalize_score (r.overall_score.getD (.num 50)),
      experience_score := normalize_score (r.experience_score.getD (.num 50)),
      skill_score := normalize_score (r.skill_score.getD (.num 50)) }
  | none =>
    { overall_score := (salvage.overall.map (Int.ofNat)).getD 50,
      experience_score := (salvage.experience.map (Int.ofNat)).getD 50,
      skill_score := (salvage.skill.map (Int.ofNat)).getD 50 }

/-- A stored weight vector distinct from the defaults, used as concrete
data. -/
def wvQuarter : WeightVector := { skill := 1/4, experience := 1/4, education := 1/4, semantic := 1/4 }

/-- A table holding `wvQuarter` under the recruiter-only scope
`(recruiter 1, NULL)` and nothing else. -/
def dbRecruiterOnly : WeightsDB :=
  [{ recruiter_id := some 1, job_id := none, weights := wvQuarter, iteration_count := 1 }]

/-- The concrete fairness batch of the claims: group `0` (A) scores 85 and
82, group `1` (B) scores 67 and 65. -/
def auditData : List Candidate := [⟨0, 85⟩, ⟨0, 82⟩, ⟨1, 67⟩, ⟨1, 65⟩]

/-- A concrete abstract fitter, returning coefficient vector `(1, 1, 1, 1)`. -/
def fitOnes : FitFun := fun _ _ => ⟨1, 1, 1, 1⟩

/-- A concrete two-sample feedback batch: one hired, one rejected. -/
def fbTwo : List FeedbackEntry :=
  [{ ai_score := 80, hired := true, skill_score := none, experience_score := none,
     education_score := none, semantic_score := none },
   { ai_score := 40, hired := false, skill_score := none, experience_score := none,
     education_score := none, semantic_score := none }]

/-!
## Helper lemmas
-/

theorem pyRoundInt_intCast (a : ℤ) : pyRoundInt (a : ℚ) = a := by
  simp [pyRoundInt]

theorem pyRoundInt_nonneg {x : ℚ} (hx : 0 ≤ x) : 0 ≤ pyRoundInt x := by
  have hf : (0 : ℤ) ≤ ⌊x⌋ := Int.floor_nonneg.mpr hx
  unfold pyRoundInt
  split
  · exact hf
  · split
    · omega
    · split <;> omega

theorem pyRoundInt_le {x : ℚ} {B : ℤ} (hx : x ≤ B) : pyRoundInt x ≤ B := by
  have hf : ⌊x⌋ ≤ B := by
    have h := Int.floor_le_floor hx
    rwa [Int.floor_intCast] at h
  unfold pyRoundInt
  split
  · exact hf
  · rename_i h1
    have hr : (1 : ℚ)/2 ≤ x - ⌊x⌋ := le_of_not_lt h1
    have hltq : (⌊x⌋ : ℚ) < B := by linarith
    have hlt : ⌊x⌋ < B := by exact_mod_cast hltq
    split
    · omega
    · split <;> omega

theorem pyRound_nonneg {x : ℚ} (nd : ℕ) (hx : 0 ≤ x) : 0 ≤ pyRound x nd := by
  unfold pyRound
  have h1 : (0 : ℤ) ≤ pyRoundInt (x * 10 ^ nd) :=
    pyRoundInt_nonneg (by positivity)
  have h2 : (0 : ℚ) ≤ (pyRoundInt (x * 10 ^ nd) : ℚ) := by exact_mod_cast h1
  positivity

theorem pyRound_le_one {x : ℚ} (nd : ℕ) (hx : x ≤ 1) : pyRound x nd ≤ 1 := by
  unfold pyRound
  have hpow : (0 : ℚ) < 10 ^ nd := by positivity
  have h1 : pyRoundInt (x * 10 ^ nd) ≤ ((10 : ℤ) ^ nd) := by
    apply pyRoundInt_le
    push_cast
    nlinarith
  have h2 : (pyRoundInt (x * 10 ^ nd) : ℚ) ≤ (10 : ℚ) ^ nd := by exact_mod_cast h1
  rw [div_le_one hpow]
  exact h2

theorem pyRound_cent_self {x : ℚ} (h : ∃ a : ℤ, x = a / 100) : pyRound x 2 = x := by
  obtain ⟨a, rfl⟩ := h
  have h100 : ((a : ℚ) / 100) * 10 ^ 2 = (a : ℚ) := by
    rw [show ((10 : ℚ) ^ 2) = 100 from by norm_num]
    exact div_mul_cancel₀ _ (by norm_num)
  unfold pyRound
  rw [h100, pyRoundInt_intCast]
  norm_num

/-!
## C9 — the hybrid combiner at the boundary weights
-/

/-- C9, counterexample: the claim "for all scores s, j in [0,100],
combine(s, j, 1) == s" fails at `s = 1/3`, `j = 0`: `combine_scores` rounds
its result to two decimals, so it returns `0.33`, not `1/3`. -/
theorem combine_scores_weight_one_counterexample :
    combine_scores (1/3) 0 1 = 33/100 ∧ ¬ combine_scores (1/3) 0 1 = 1/3 := by
  constructor
  · norm_num [combine_scores, pyRound, pyRoundInt]
  · norm_num [combine_scores, pyRound, pyRoundInt]

/-- C9, amended: for scores representable at two decimal places (every score
the combiner itself emits), `combine(s, j, 1) = s` and `combine(s, j, 0) = j`
for `s, j ∈ [0,100]`, and `combine(80, 60, 0.5) = 70`. -/
theorem combine_scores_boundary_weights (s j : ℚ)
    (hs0 : 0 ≤ s) (hs1 : s ≤ 100) (hj0 : 0 ≤ j) (hj1 : j ≤ 100)
    (hs : ∃ a : ℤ, s = a / 100) (hj : ∃ b : ℤ, j = b / 100) :
    combine_scores s j 1 = s ∧ combine_scores s j 0 = j ∧
      combine_scores 80 60 (1/2) = 70 := by
  refine ⟨?_, ?_, ?_⟩
  · have h : (1 : ℚ) * s + (1 - 1) * j = s := by ring
    simpa [combine_scores, h] using pyRound_cent_self hs
  · have h : (0 : ℚ) * s + (1 - 0) * j = j := by ring
    simpa [combine_scores, h] using pyRound_cent_self hj
  · norm_num [combine_scores, pyRound, pyRoundInt]

/-- C9, witness for the amended theorem at `s = 80`, `j = 60`. -/
theorem combine_scores_boundary_weights_witness :
    combine_scores 80 60 1 = 80 ∧ combine_scores 80 60 0 = 60 ∧
      combine_scores 80 60 (1/2) = 70 :=
  combine_scores_boundary_weights 80 60 (by norm_num) (by norm_num)
    (by norm_num) (by norm_num) ⟨8000, by norm_num⟩ ⟨6000, by norm_num⟩

/-!
## C5 — batches of fewer than two samples are a no-op
-/

/-- C5: with fewer than two feedback samples, `update_weights` returns the
weights resolved for the requested scope and leaves the table untouched,
whatever the strategy configuration. -/
theorem update_weights_small_batch (fit : FitFun) (sk np : Bool)
    (db : WeightsDB) (feedback : List FeedbackEntry)
    (recruiter_id job_id : Option ℤ) (lr : ℚ)
    (h : feedback.length < 2) :
    update_weights fit sk np db feedback recruiter_id job_id lr =
      (get_weights db recruiter_id job_id, db) := by
  simp [update_weights, h]

/-- C5, witness: the empty batch on the empty table. -/
theorem update_weights_small_batch_witness :
    update_weights fitOnes true true [] [] none none (1/10) =
      (get_weights [] none none, []) :=
  update_weights_small_batch fitOnes true true [] [] none none (1/10) (by simp)

/-!
## C2 — scope resolution of the Weight Store read
-/

/-- C2, counterexample: with a vector stored only under the recruiter scope
`(recruiter 1, NULL)`, a read for `(recruiter 1, job 2)` returns the global
default, not the stored vector — the claimed narrower-to-broader cascade does
not exist: when both ids are given only the exact scope is consulted. -/
theorem get_weights_no_cascade_counterexample :
    get_weights dbRecruiterOnly (some 1) (some 2) = DEFAULT_WEIGHTS ∧
      ¬ get_weights dbRecruiterOnly (some 1) (some 2) = wvQuarter := by
  constructor
  · simp [get_weights, dbRecruiterOnly, queryScope, truthy, List.find?]
  · simp [get_weights, dbRecruiterOnly, queryScope, truthy, List.find?,
      DEFAULT_WEIGHTS, wvQuarter]

/-- C2, amended: when both ids are present (truthy), the read consults only
the exact `(recruiter, job)` scope and falls back directly to the global
default `{0.4, 0.3, 0.1, 0.2}` when that single scope has no stored vector;
the intermediate `(recruiter, *)` and `(*, job)` scopes are never consulted. -/
theorem get_weights_single_scope (db : WeightsDB) (r j : Option ℤ)
    (hr : truthy r) (hj : truthy j) :
    get_weights db r j =
      (match queryScope db r j with
       | some row => row.weights
       | none => DEFAULT_WEIGHTS) := by
  simp [get_weights, hr, hj]

/-- C2, witness for the amended theorem: empty table, ids `(1, 2)`. -/
theorem get_weights_single_scope_witness :
    get_weights [] (some 1) (some 2) =
      (match queryScope [] (some 1) (some 2) with
       | some row => row.weights
       | none => DEFAULT_WEIGHTS) :=
  get_weights_single_scope [] (some 1) (some 2) (by decide) (by decide)

/-!
## C8 — judgment-response parsing
-/

/-- Each value `_normalize_score` produces lies in `[0, 100]`. -/
theorem normalize_score_mem (v : JVal) :
    0 ≤ normalize_score v ∧ normalize_score v ≤ 100 := by
  cases v <;> constructor <;> simp [normalize_score]

/-- C8, counterexample: the claim that every parsed numeric field is clamped
to `[0, 100]` fails on the regex-salvage path — for a response whose JSON
parse fails but which contains `"overall_score": 500`, the salvaged value is
passed through `int(...)` with no clamping, so the returned overall score is
`500`. -/
theorem parse_llm_response_salvage_unclamped :
    (parse_llm_response none
        { overall := some 500, experience := none, skill := none }).overall_score
      = 500 ∧
    ¬ (parse_llm_response none
        { overall := some 500, experience := none, skill := none }).overall_score
      ≤ 100 := by
  constructor
  · rfl
  · decide

/-- C8, amended: on the structured path every numeric field is coerced and
clamped to `[0, 100]` (default `50` for an absent or unparsable value); when
structured parsing fails entirely the regex salvage supplies the captured
integers unclamped, with `50` for a field whose pattern does not match. -/
theorem parse_llm_response_fields (parsed : Option ParsedJson)
    (salvage : RegexSalvage) :
    (∀ r : ParsedJson, parsed = some r →
      (0 ≤ (parse_llm_response parsed salvage).overall_score ∧
        (parse_llm_response parsed salvage).overall_score ≤ 100) ∧
      (0 ≤ (parse_llm_response parsed salvage).experience_score ∧
        (parse_llm_response parsed salvage).experience_score ≤ 100) ∧
      (0 ≤ (parse_llm_response parsed salvage).skill_score ∧
        (parse_llm_response parsed salvage).skill_score ≤ 100)) ∧
    (parsed = none →
      (parse_llm_response parsed salvage).overall_score
          = (salvage.overall.map Int.ofNat).getD 50 ∧
      (parse_llm_response parsed salvage).experience_score
          = (salvage.experience.map Int.ofNat).getD 50 ∧
      (parse_llm_response parsed salvage).skill_score
          = (salvage.skill.map Int.ofNat).getD 50) := by
  constructor
  · rintro r rfl
    exact ⟨normalize_score_mem _, normalize_score_mem _, normalize_score_mem _⟩
  · rintro rfl
    exact ⟨rfl, rfl, rfl⟩

/-- C8, witness for the amended theorem: a structured parse carrying an
out-of-range number, a bad string and an absent key. -/
theorem parse_llm_response_fields_witness :
    (0 ≤ (parse_llm_response
        (some { overall_score := some (.num 500), experience_score := some .badStr,
                skill_score := none })
        { overall := none, experience := none, skill := none }).overall_score ∧
      (parse_llm_response
        (some { overall_score := some (.num 500), experience_score := some .badStr,
                skill_score := none })
        { overall := none, experience := none, skill := none }).overall_score ≤ 100) ∧
    (0 ≤ (parse_llm_response
        (some { overall_score := some (.num 500), experience_score := some .badStr,
                skill_score := none })
        { overall := none, experience := none, skill := none }).experience_score ∧
      (parse_llm_response
        (some { overall_score := some (.num 500), experience_score := some .badStr,
                skill_score := none })
        { overall := none, experience := none, skill := none }).experience_score ≤ 100) ∧
    (0 ≤ (parse_llm_response
        (some { overall_score := some (.num 500), experience_score := some .badStr,
                skill_score := none })
        { overall := none, experience := none, skill := none }).skill_score ∧
      (parse_llm_response
        (some { overall_score := some (.num 500), experience_score := some .badStr,
                skill_score := none })
        { overall := none, experience := none, skill := none }).skill_score ≤ 100) :=
  (parse_llm_response_fields
      (some { overall_score := some (.num 500), experience_score := some .badStr,
              skill_score := none })
      { overall := none, experience := none, skill := none }).1 _ rfl

/-!
## C1 — the final weighted overall score
-/

/-- C1, counterexample: with the store read failing, hybrid match `100` and
the three other scores `0`, the code computes `100 * 0.35 = 35`, whereas the
claimed fallback to the default weights `{0.4, 0.3, 0.1, 0.2}` would give
`100 * 0.2 = 20`: the error fallback does not use the compiled-in default
weight vector. -/
theorem calculateOverallScore_error_counterexample :
    calculateOverallScore [] false true true none none 0 0 0 100 = 35 ∧
      ¬ calculateOverallScore [] false true true none none 0 0 0 100 =
          0 * (4/10) + 0 * (3/10) + 0 * (1/10) + 100 * (2/10) := by
  constructor <;> norm_num [calculateOverallScore]

/-- C1, amended: when the Weight-Store read succeeds, the overall score is
`hybrid_skill*skill_weight + hybrid_experience*experience_weight +
education_score*education_weight + hybrid_match*semantic_weight` with the
weight vector resolved for the scope of the candidate (this vector is the
compiled-in default `{0.4, 0.3, 0.1, 0.2}` when nothing is stored for the
scope); when the read raises, the score falls back to the fixed blend
`hybrid_match*0.35 + hybrid_skill*0.30 + hybrid_experience*0.25 +
education_score*0.10`. -/
theorem calculateOverallScore_weights (db : WeightsDB)
    (recruiter_id job_id : Option ℤ) (hs he ed ho : ℚ) :
    calculateOverallScore db true true true recruiter_id job_id hs he ed ho =
      hs * (get_weights db recruiter_id job_id).skill +
      he * (get_weights db recruiter_id job_id).experience +
      ed * (get_weights db recruiter_id job_id).education +
      ho * (get_weights db recruiter_id job_id).semantic ∧
    calculateOverallScore db false true true recruiter_id job_id hs he ed ho =
      ho * (35/100) + hs * (30/100) + he * (25/100) + ed * (1/10) := by
  constructor <;> simp [calculateOverallScore]

/-!
## C6 — the fairness audit on the concrete two-group batch
-/

/-- C6, counterexample: on groups A = {85, 82} and B = {67, 65} with
threshold 10, the bias magnitude of the audit is `83.5 - 66 = 17.5`, not the
claimed `15.0` (the group means are 83.5 and 66). -/
theorem audit_fairness_magnitude_counterexample :
    (audit_fairness true none auditData 10).bias_magnitude = 35/2 ∧
      ¬ (audit_fairness true none auditData 10).bias_magnitude = 15 := by
  constructor <;>
    norm_num [audit_fairness, auditData, groupsOf, groupScores, groupMean,
      listMean, listMax, listMin, argmaxGroup, argminGroup, pyRound, pyRoundInt,
      List.dedup, List.insertionSort, List.orderedInsert, List.filter,
      List.foldl, Int.even_iff]

/-- C6, amended: the audit computes `bias_magnitude` as the maximum group
mean minus the minimum group mean and flags `bias_detected` exactly when it
exceeds the threshold; on A = {85, 82}, B = {67, 65} with threshold 10 it
returns `bias_magnitude = 17.5` (not 15.0), `bias_detected = true`, and a
statistical significance in `[0, 1]` — whether the scipy t-test supplies a
p-value in `[0, 1]` or the numpy mean-difference proxy is used. -/
theorem audit_fairness_concrete_batch (scipyTT : Option (List ℚ → List ℚ → ℚ))
    (hp : ∀ f, scipyTT = some f →
      0 ≤ f [85, 82] [67, 65] ∧ f [85, 82] [67, 65] ≤ 1) :
    (audit_fairness true scipyTT auditData 10).bias_magnitude = 35/2 ∧
    (audit_fairness true scipyTT auditData 10).bias_detected = true ∧
    0 ≤ (audit_fairness true scipyTT auditData 10).statistical_significance ∧
    (audit_fairness true scipyTT auditData 10).statistical_significance ≤ 1 := by
  cases scipyTT with
  | none =>
    have hmin : ((19 : ℚ)/20 ⊓ |(35 : ℚ)/2| / 100) = 7/40 := by
      rw [abs_of_nonneg (by norm_num : (0 : ℚ) ≤ 35/2)]
      norm_num [min_def]
    norm_num [audit_fairness, auditData, groupsOf, groupScores, groupMean,
      listMean, listMax, listMin, argmaxGroup, argminGroup, pyRound, pyRoundInt,
      List.dedup, List.insertionSort, List.orderedInsert, List.filter,
      List.foldl, Int.even_iff, hmin]
  | some f =>
    obtain ⟨h0, h1⟩ := hp f rfl
    have hmain :
        (audit_fairness true (some f) auditData 10).bias_magnitude = 35/2 ∧
        (audit_fairness true (some f) auditData 10).bias_detected = true ∧
        (audit_fairness true (some f) auditData 10).statistical_significance =
          pyRound (1 - f [85, 82] [67, 65]) 3 := by
      norm_num [audit_fairness, auditData, groupsOf, groupScores, groupMean,
        listMean, listMax, listMin, argmaxGroup, argminGroup, pyRound, pyRoundInt,
        List.dedup, List.insertionSort, List.orderedInsert, List.filter,
        List.foldl, Int.even_iff]
    refine ⟨hmain.1, hmain.2.1, ?_, ?_⟩
    · rw [hmain.2.2]
      exact pyRound_nonneg 3 (by linarith)
    · rw [hmain.2.2]
      exact pyRound_le_one 3 (by linarith)

/-- C6, witness for the amended theorem: the scipy-unavailable configuration,
where the proxy gives significance `0.175`. -/
theorem audit_fairness_concrete_batch_witness :
    (audit_fairness true none auditData 10).bias_magnitude = 35/2 ∧
    (audit_fairness true none auditData 10).bias_detected = true ∧
    0 ≤ (audit_fairness true none auditData 10).statistical_significance ∧
    (audit_fairness true none auditData 10).statistical_significance ≤ 1 :=
  audit_fairness_concrete_batch none (fun f h => Option.noConfusion h)

/-!
## C7 — Disparate Impact Ratio on uniformly passing batches
-/

theorem foldl_max_const (a : ℚ) (l : List ℚ) (h : ∀ x ∈ l, x = a) :
    l.foldl max a = a := by
  induction l with
  | nil => rfl
  | cons x xs ih =>
    have hx : x = a := h x (by simp)
    have hxs : ∀ y ∈ xs, y = a := fun y hy => h y (by simp [hy])
    simp [hx, max_self]
    exact ih hxs

theorem foldl_min_const (a : ℚ) (l : List ℚ) (h : ∀ x ∈ l, x = a) :
    l.foldl min a = a := by
  induction l with
  | nil => rfl
  | cons x xs ih =>
    have hx : x = a := h x (by simp)
    have hxs : ∀ y ∈ xs, y = a := fun y hy => h y (by simp [hy])
    simp [hx, min_self]
    exact ih hxs

theorem listMax_const {a : ℚ} {l : List ℚ} (hne : l ≠ [])
    (h : ∀ x ∈ l, x = a) : listMax l = a := by
  cases l with
  | nil => exact absurd rfl hne
  | cons x xs =>
    have hx : x = a := h x (by simp)
    have hxs : ∀ y ∈ xs, y = a := fun y hy => h y (by simp [hy])
    simpa [listMax, hx] using foldl_max_const a xs hxs

theorem listMin_const {a : ℚ} {l : List ℚ} (hne : l ≠ [])
    (h : ∀ x ∈ l, x = a) : listMin l = a := by
  cases l with
  | nil => exact absurd rfl hne
  | cons x xs =>
    have hx : x = a := h x (by simp)
    have hxs : ∀ y ∈ xs, y = a := fun y hy => h y (by simp [hy])
    simpa [listMin, hx] using foldl_min_const a xs hxs

theorem mem_groupsOf {g : ℕ} {data : List Candidate} :
    g ∈ groupsOf data ↔ g ∈ data.map (fun c => c.group) := by
  unfold groupsOf
  rw [(List.perm_insertionSort _ _).mem_iff, List.mem_dedup]

theorem groupsOf_ne_nil {data : List Candidate} (hne : data ≠ []) :
    groupsOf data ≠ [] := by
  cases data with
  | nil => exact absurd rfl hne
  | cons c rest =>
    have : c.group ∈ groupsOf (c :: rest) := mem_groupsOf.mpr (by simp)
    exact List.ne_nil_of_mem this

theorem passRate_eq_one {data : List Candidate} {g : ℕ} {t : ℚ}
    (hg : g ∈ groupsOf data) (hall : ∀ c ∈ data, t ≤ c.score) :
    passRate data g t = 1 := by
  obtain ⟨c, hc, hcg⟩ := List.mem_map.mp (mem_groupsOf.mp hg)
  have hmem : c.score ∈ groupScores data g := by
    unfold groupScores
    exact List.mem_map.mpr ⟨c, List.mem_filter.mpr ⟨hc, by simp [hcg]⟩, rfl⟩
  have hfilter : (groupScores data g).filter (fun x => decide (t ≤ x)) =
      groupScores data g := by
    apply List.filter_eq_self.mpr
    intro x hx
    obtain ⟨d, hd, hdx⟩ := List.mem_map.mp hx
    have : d ∈ data := (List.mem_filter.mp hd).1
    simpa [← hdx] using hall d this
  have hlen : (groupScores data g).length ≠ 0 :=
    fun h => List.ne_nil_of_mem hmem (List.length_eq_zero.mp h)
  unfold passRate
  simp only [hfilter]
  rw [div_self]
  exact_mod_cast hlen

/-- C7: spec-modelled Disparate Impact Ratio (the source of
`comprehensive_fairness_audit` is absent from the repository snapshot, only
its callers and tests are present).  DIR is the pass rate of the
lowest-performing group over that of the highest-performing group; when every
candidate of a non-empty batch reaches the pass threshold, each group has pass rate
`1` and DIR is exactly `1` — no adverse impact. -/
theorem disparate_impact_ratio_uniform_pass (data : List Candidate) (t : ℚ)
    (hne : data ≠ []) (hall : ∀ c ∈ data, t ≤ c.score) :
    disparate_impact_ratio data t = 1 := by
  unfold disparate_impact_ratio
  have hrates : ∀ x ∈ (groupsOf data).map (fun g => passRate data g t), x = 1 := by
    intro x hx
    obtain ⟨g, hg, hgx⟩ := List.mem_map.mp hx
    rw [← hgx]
    exact passRate_eq_one hg hall
  have hne2 : (groupsOf data).map (fun g => passRate data g t) ≠ [] := by
    intro h
    exact groupsOf_ne_nil hne (List.map_eq_nil_iff.mp h)
  show listMin ((groupsOf data).map (fun g => passRate data g t)) /
      listMax ((groupsOf data).map (fun g => passRate data g t)) = 1
  rw [listMin_const hne2 hrates, listMax_const hne2 hrates]
  norm_num

/-- C7, witness: two groups, scores 80 and 90, threshold 70. -/
theorem disparate_impact_ratio_uniform_pass_witness :
    disparate_impact_ratio [⟨0, 80⟩, ⟨1, 90⟩] 70 = 1 :=
  disparate_impact_ratio_uniform_pass [⟨0, 80⟩, ⟨1, 90⟩] 70 (by simp)
    (by
      intro c hc
      rcases List.mem_cons.mp hc with h | h
      · rw [h]; norm_num
      · rcases List.mem_cons.mp h with h2 | h2
        · rw [h2]; norm_num
        · simp at h2)

/-!
## Helper lemmas for the adaptive learner
-/

theorem default_weights_nonneg : DEFAULT_WEIGHTS.Nonneg := by
  refine ⟨?_, ?_, ?_, ?_⟩ <;> norm_num [DEFAULT_WEIGHTS]

theorem resolve_nonneg (db : WeightsDB)
    (hdb : ∀ row ∈ db, row.weights.Nonneg) (a b : Option ℤ) :
    (match queryScope db a b with
     | some row => row.weights
     | none => DEFAULT_WEIGHTS).Nonneg := by
  cases hq : queryScope db a b with
  | none => exact default_weights_nonneg
  | some row => exact hdb row (List.mem_of_find?_eq_some hq)

theorem get_weights_nonneg (db : WeightsDB) (r j : Option ℤ)
    (hdb : ∀ row ∈ db, row.weights.Nonneg) : (get_weights db r j).Nonneg := by
  unfold get_weights
  split_ifs <;> exact resolve_nonneg db hdb _ _

theorem total_nonneg_of_nonneg {w : WeightVector} (h : w.Nonneg) :
    0 ≤ w.total := by
  obtain ⟨h1, h2, h3, h4⟩ := h
  unfold WeightVector.total
  linarith

theorem normalizeAbsCoeffs_spec (c : Coeffs) :
    (normalizeAbsCoeffs c).Nonneg ∧ (normalizeAbsCoeffs c).total = 1 := by
  simp only [normalizeAbsCoeffs]
  split_ifs with h
  · have hne : |c.c0| + |c.c1| + |c.c2| + |c.c3| ≠ 0 := ne_of_gt h
    constructor
    · refine ⟨?_, ?_, ?_, ?_⟩ <;> positivity
    · show |c.c0| / _ + |c.c1| / _ + |c.c2| / _ + |c.c3| / _ = 1
      rw [div_add_div_same, div_add_div_same, div_add_div_same]
      exact div_self hne
  · constructor
    · refine ⟨?_, ?_, ?_, ?_⟩ <;> norm_num
    · show (4 : ℚ)/10 + 3/10 + 1/10 + 2/10 = 1
      norm_num

theorem blend_nonneg {current learned : WeightVector} {lr : ℚ}
    (hc : current.Nonneg) (hl : learned.Nonneg) (h0 : 0 ≤ lr) (h1 : lr ≤ 1) :
    (blend current learned lr).Nonneg := by
  obtain ⟨hc1, hc2, hc3, hc4⟩ := hc
  obtain ⟨hl1, hl2, hl3, hl4⟩ := hl
  have hml : (0 : ℚ) ≤ 1 - lr := by linarith
  refine ⟨?_, ?_, ?_, ?_⟩ <;>
    exact add_nonneg (mul_nonneg (by assumption) hml)
      (mul_nonneg (by assumption) h0)

theorem blend_total (current learned : WeightVector) (lr : ℚ) :
    (blend current learned lr).total = current.total * (1 - lr) + learned.total * lr := by
  simp only [blend, WeightVector.total]
  ring

theorem renormalize_spec {w : WeightVector} (hw : w.Nonneg) (ht : 0 < w.total) :
    (renormalize w).Nonneg ∧ (renormalize w).total = 1 := by
  obtain ⟨h1, h2, h3, h4⟩ := hw
  have hne : w.total ≠ 0 := ne_of_gt ht
  simp only [renormalize]
  rw [if_pos ht]
  constructor
  · refine ⟨?_, ?_, ?_, ?_⟩ <;> positivity
  · show w.skill / w.total + w.experience / w.total + w.education / w.total +
        w.semantic / w.total = 1
    rw [div_add_div_same, div_add_div_same, div_add_div_same]
    exact div_self hne

/-!
## C3 — weights persisted by `update_weights` are non-negative and sum to 1
-/

/-- C3: whenever `update_weights` completes through a writing path — the
regression strategy (sklearn and numpy available) always writes; the
fallback strategy writes when the batch has both hired and rejected
samples — the returned weight vector, which is exactly the vector passed to
`_save_weights`, has four non-negative components summing to `1` (exactly,
in the rational model; the `±1e-6` of the spec allows for float error).
Requires the documented contract `learning_rate ∈ (0, 1]` and stored vectors
that are themselves non-negative. -/
theorem update_weights_persists_normalized (fit : FitFun) (sk np : Bool)
    (db : WeightsDB) (feedback : List FeedbackEntry) (rid jid : Option ℤ)
    (lr : ℚ)
    (hlr0 : 0 < lr) (hlr1 : lr ≤ 1)
    (hdb : ∀ row ∈ db, row.weights.Nonneg)
    (hlen : 2 ≤ feedback.length)
    (hwrite : (sk = true ∧ np = true) ∨
      (feedback.filter (fun e => e.hired) ≠ [] ∧
        feedback.filter (fun e => ¬ e.hired) ≠ [])) :
    (update_weights fit sk np db feedback rid jid lr).1.Nonneg ∧
    (update_weights fit sk np db feedback rid jid lr).1.total = 1 ∧
    ((update_weights fit sk np db feedback rid jid lr).2 =
        save_weights db (update_weights fit sk np db feedback rid jid lr).1 rid jid ∨
      (update_weights fit sk np db feedback rid jid lr).2 =
        save_weights db (update_weights fit sk np db feedback rid jid lr).1 none none) := by
  have hnotlt : ¬ feedback.length < 2 := by omega
  have hcur : (get_weights db rid jid).Nonneg := get_weights_nonneg db rid jid hdb
  by_cases hml : sk = true ∧ np = true
  · obtain ⟨rfl, rfl⟩ := hml
    have hres : update_weights fit true true db feedback rid jid lr =
        (renormalize (blend (get_weights db rid jid)
            (normalizeAbsCoeffs (fit
              (feedback.map (fun e => (featSkill e, featExp e, featEdu e, featSem e)))
              (feedback.map (fun e => if e.hired then (1 : ℚ) else 0)))) lr),
          save_weights db
            (renormalize (blend (get_weights db rid jid)
              (normalizeAbsCoeffs (fit
                (feedback.map (fun e => (featSkill e, featExp e, featEdu e, featSem e)))
                (feedback.map (fun e => if e.hired then (1 : ℚ) else 0)))) lr))
            rid jid) := by
      simp [update_weights, hnotlt]
    obtain ⟨hlN, hlT⟩ := normalizeAbsCoeffs_spec (fit
      (feedback.map (fun e => (featSkill e, featExp e, featEdu e, featSem e)))
      (feedback.map (fun e => if e.hired then (1 : ℚ) else 0)))
    have hbN := blend_nonneg hcur hlN (le_of_lt hlr0) hlr1
    have hbT : 0 < (blend (get_weights db rid jid)
        (normalizeAbsCoeffs (fit
          (feedback.map (fun e => (featSkill e, featExp e, featEdu e, featSem e)))
          (feedback.map (fun e => if e.hired then (1 : ℚ) else 0)))) lr).total := by
      rw [blend_total, hlT]
      have := total_nonneg_of_nonneg hcur
      nlinarith
    obtain ⟨hN, hT⟩ := renormalize_spec hbN hbT
    rw [hres]
    exact ⟨hN, hT, Or.inl rfl⟩
  · have hpart := hwrite.resolve_left hml
    have hres : update_weights fit sk np db feedback rid jid lr =
        simple_weight_update np db feedback (get_weights db rid jid) lr := by
      simp [update_weights, hnotlt, hml]
    have hclampN : ∀ sd ed ud md : ℚ,
        (WeightVector.mk
          (max (1/10) (min (6/10) ((get_weights db rid jid).skill + sd)))
          (max (1/10) (min (6/10) ((get_weights db rid jid).experience + ed)))
          (max (5/100) (min (3/10) ((get_weights db rid jid).education + ud)))
          (max (1/10) (min (5/10) ((get_weights db rid jid).semantic + md)))).Nonneg := by
      intro sd ed ud md
      refine ⟨?_, ?_, ?_, ?_⟩ <;>
        exact le_trans (by norm_num) (le_max_left _ _)
    have hclampT : ∀ sd ed ud md : ℚ,
        0 < (WeightVector.mk
          (max (1/10) (min (6/10) ((get_weights db rid jid).skill + sd)))
          (max (1/10) (min (6/10) ((get_weights db rid jid).experience + ed)))
          (max (5/100) (min (3/10) ((get_weights db rid jid).education + ud)))
          (max (1/10) (min (5/10) ((get_weights db rid jid).semantic + md)))).total := by
      intro sd ed ud md
      have h1 : (1:ℚ)/10 ≤ max (1/10) (min (6/10) ((get_weights db rid jid).skill + sd)) :=
        le_max_left _ _
      have h2 : (1:ℚ)/10 ≤ max (1/10) (min (6/10) ((get_weights db rid jid).experience + ed)) :=
        le_max_left _ _
      have h3 : (5:ℚ)/100 ≤ max (5/100) (min (3/10) ((get_weights db rid jid).education + ud)) :=
        le_max_left _ _
      have h4 : (1:ℚ)/10 ≤ max (1/10) (min (5/10) ((get_weights db rid jid).semantic + md)) :=
        le_max_left _ _
      unfold WeightVector.total
      dsimp only
      linarith
    rw [hres]
    unfold simple_weight_update
    rw [if_pos hpart]
    obtain ⟨hN, hT⟩ := renormalize_spec (hclampN _ _ _ _) (hclampT _ _ _ _)
    exact ⟨hN, hT, Or.inr rfl⟩

/-- C3, witness: fallback configuration (no sklearn), one hired and one
rejected sample, empty table, learning rate `0.1`. -/
theorem update_weights_persists_normalized_witness :
    (update_weights fitOnes false true [] fbTwo none none (1/10)).1.Nonneg ∧
    (update_weights fitOnes false true [] fbTwo none none (1/10)).1.total = 1 ∧
    ((update_weights fitOnes false true [] fbTwo none none (1/10)).2 =
        save_weights [] (update_weights fitOnes false true [] fbTwo none none (1/10)).1 none none ∨
      (update_weights fitOnes false true [] fbTwo none none (1/10)).2 =
        save_weights [] (update_weights fitOnes false true [] fbTwo none none (1/10)).1 none none) :=
  update_weights_persists_normalized fitOnes false true [] fbTwo none none (1/10)
    (by norm_num) (by norm_num) (by simp) (by simp [fbTwo])
    (Or.inr (by simp [fbTwo]))

/-!
## C4 — the regression update implements the specified pipeline
-/

/-- C4: with at least two samples, sklearn and numpy available, a learning
rate in `(0, 1]`, non-negative stored vectors and a non-zero fitted
coefficient vector, `update_weights` computes exactly the pipeline of §4.6:
normalized absolute coefficients, blend `current*(1-lr) + learned*lr`,
renormalization to sum 1, and a write of the result under the requested
scope (`regressionUpdateSpec` is that pipeline written from the
sentences of the specification). -/
theorem update_weights_regression_formula (fit : FitFun) (db : WeightsDB)
    (feedback : List FeedbackEntry) (rid jid : Option ℤ) (lr : ℚ)
    (hlen : 2 ≤ feedback.length)
    (hdb : ∀ row ∈ db, row.weights.Nonneg)
    (hlr0 : 0 < lr) (hlr1 : lr ≤ 1)
    (habs : fit (feedback.map (fun e => (featSkill e, featExp e, featEdu e, featSem e)))
        (feedback.map (fun e => if e.hired then (1 : ℚ) else 0)) ≠ ⟨0, 0, 0, 0⟩) :
    update_weights fit true true db feedback rid jid lr =
      regressionUpdateSpec fit db feedback rid jid lr := by
  have hnotlt : ¬ feedback.length < 2 := by omega
  set c := fit (feedback.map (fun e => (featSkill e, featExp e, featEdu e, featSem e)))
      (feedback.map (fun e => if e.hired then (1 : ℚ) else 0)) with hc
  have hT : 0 < |c.c0| + |c.c1| + |c.c2| + |c.c3| := by
    by_contra h
    push_neg at h
    have h0 := abs_nonneg c.c0
    have h1 := abs_nonneg c.c1
    have h2 := abs_nonneg c.c2
    have h3 := abs_nonneg c.c3
    have e0 : c.c0 = 0 := abs_eq_zero.mp (by linarith)
    have e1 : c.c1 = 0 := abs_eq_zero.mp (by linarith)
    have e2 : c.c2 = 0 := abs_eq_zero.mp (by linarith)
    have e3 : c.c3 = 0 := abs_eq_zero.mp (by linarith)
    apply habs
    have heta : c = ⟨c.c0, c.c1, c.c2, c.c3⟩ := rfl
    rw [heta, e0, e1, e2, e3]
  have hcurN := get_weights_nonneg db rid jid hdb
  have hlearn : normalizeAbsCoeffs c =
      { skill := |c.c0| / (|c.c0| + |c.c1| + |c.c2| + |c.c3|),
        experience := |c.c1| / (|c.c0| + |c.c1| + |c.c2| + |c.c3|),
        education := |c.c2| / (|c.c0| + |c.c1| + |c.c2| + |c.c3|),
        semantic := |c.c3| / (|c.c0| + |c.c1| + |c.c2| + |c.c3|) } := by
    simp only [normalizeAbsCoeffs]
    rw [if_pos hT]
  have hbT : 0 < (blend (get_weights db rid jid) (normalizeAbsCoeffs c) lr).total := by
    rw [blend_total, (normalizeAbsCoeffs_spec c).2]
    have := total_nonneg_of_nonneg hcurN
    nlinarith
  have hnw : renormalize (blend (get_weights db rid jid) (normalizeAbsCoeffs c) lr) =
      { skill := (blend (get_weights db rid jid) (normalizeAbsCoeffs c) lr).skill /
          (blend (get_weights db rid jid) (normalizeAbsCoeffs c) lr).total,
        experience := (blend (get_weights db rid jid) (normalizeAbsCoeffs c) lr).experience /
          (blend (get_weights db rid jid) (normalizeAbsCoeffs c) lr).total,
        education := (blend (get_weights db rid jid) (normalizeAbsCoeffs c) lr).education /
          (blend (get_weights db rid jid) (normalizeAbsCoeffs c) lr).total,
        semantic := (blend (get_weights db rid jid) (normalizeAbsCoeffs c) lr).semantic /
          (blend (get_weights db rid jid) (normalizeAbsCoeffs c) lr).total } := by
    simp only [renormalize]
    rw [if_pos hbT]
  have hupd : update_weights fit true true db feedback rid jid lr =
      (renormalize (blend (get_weights db rid jid) (normalizeAbsCoeffs c) lr),
        save_weights db
          (renormalize (blend (get_weights db rid jid) (normalizeAbsCoeffs c) lr))
          rid jid) := by
    simp [update_weights, hnotlt, ← hc]
  have hspec : regressionUpdateSpec fit db feedback rid jid lr =
      (renormalize (blend (get_weights db rid jid) (normalizeAbsCoeffs c) lr),
        save_weights db
          (renormalize (blend (get_weights db rid jid) (normalizeAbsCoeffs c) lr))
          rid jid) := by
    simp only [regressionUpdateSpec, ← hc, ← hlearn, ← hnw]
  rw [hupd, hspec]

/-- C4, witness: two samples (one hired, one rejected), a fitter returning
`(1, 1, 1, 1)`, the empty table and learning rate `0.1`. -/
theorem update_weights_regression_formula_witness :
    update_weights fitOnes true true [] fbTwo none none (1/10) =
      regressionUpdateSpec fitOnes [] fbTwo none none (1/10) :=
  update_weights_regression_formula fitOnes [] fbTwo none none (1/10)
    (by simp [fbTwo]) (by simp) (by norm_num) (by norm_num)
    (by
      intro h
      have : (1 : ℚ) = 0 := congrArg Coeffs.c0 h
      norm_num at this)

/-!
## C10 — the fallback strategy writes only the global scope
-/

theorem queryScope_updateFirst_ne (db : WeightsDB) (a b r j : Option ℤ)
    (w : WeightVector) (hne : ¬ (a = r ∧ b = j)) :
    queryScope (updateFirst db a b w) r j = queryScope db r j := by
  induction db with
  | nil => rfl
  | cons row rest ih =>
    by_cases hab : row.recruiter_id = a ∧ row.job_id = b
    · have hrj : ¬ (row.recruiter_id = r ∧ row.job_id = j) :=
        fun h => hne ⟨hab.1.symm.trans h.1, hab.2.symm.trans h.2⟩
      unfold updateFirst
      rw [if_pos hab]
      unfold queryScope
      rw [List.find?_cons_of_neg _ (by simpa using hrj),
        List.find?_cons_of_neg _ (by simpa using hrj)]
    · unfold updateFirst
      rw [if_neg hab]
      unfold queryScope
      by_cases hrj : row.recruiter_id = r ∧ row.job_id = j
      · rw [List.find?_cons_of_pos _ (by simpa using hrj),
          List.find?_cons_of_pos _ (by simpa using hrj)]
      · rw [List.find?_cons_of_neg _ (by simpa using hrj),
          List.find?_cons_of_neg _ (by simpa using hrj)]
        exact ih

theorem queryScope_append_one (db : WeightsDB) (x : ScoringWeights)
    (r j : Option ℤ) (hx : ¬ (x.recruiter_id = r ∧ x.job_id = j)) :
    queryScope (db ++ [x]) r j = queryScope db r j := by
  unfold queryScope
  rw [List.find?_append]
  cases h : db.find? (fun row => decide (row.recruiter_id = r ∧ row.job_id = j)) with
  | some row => rfl
  | none => simp [List.find?, hx]

/-- C10: whenever the fallback (non-regression) strategy runs and persists
(both hired and rejected samples present), the write goes to the global
scope `(None, None)` regardless of the requested ids, and the stored row of
the requested non-global scope — the single scope `get_weights` would
consult for those ids — is exactly what it was before the update. -/
theorem update_weights_fallback_writes_global (fit : FitFun) (sk np : Bool)
    (db : WeightsDB) (feedback : List FeedbackEntry) (rid jid : Option ℤ)
    (lr : ℚ)
    (hml : ¬ (sk = true ∧ np = true))
    (hlen : 2 ≤ feedback.length)
    (hpart : feedback.filter (fun e => e.hired) ≠ [] ∧
      feedback.filter (fun e => ¬ e.hired) ≠ [])
    (hscope : scopeFilter rid jid ≠ (none, none)) :
    (update_weights fit sk np db feedback rid jid lr).2 =
      save_weights db (update_weights fit sk np db feedback rid jid lr).1 none none ∧
    queryScope (update_weights fit sk np db feedback rid jid lr).2
        (scopeFilter rid jid).1 (scopeFilter rid jid).2 =
      queryScope db (scopeFilter rid jid).1 (scopeFilter rid jid).2 := by
  have hnotlt : ¬ feedback.length < 2 := by omega
  have hres : update_weights fit sk np db feedback rid jid lr =
      simple_weight_update np db feedback (get_weights db rid jid) lr := by
    simp [update_weights, hnotlt, hml]
  have hsimple : (simple_weight_update np db feedback (get_weights db rid jid) lr).2 =
      save_weights db (simple_weight_update np db feedback (get_weights db rid jid) lr).1
        none none := by
    unfold simple_weight_update
    rw [if_pos hpart]
  have hglobal : scopeFilter none none = (none, none) := by
    simp [scopeFilter, truthy]
  have hne : ¬ ((none : Option ℤ) = (scopeFilter rid jid).1 ∧
      (none : Option ℤ) = (scopeFilter rid jid).2) := by
    rintro ⟨h1, h2⟩
    exact hscope (Prod.ext h1.symm h2.symm)
  constructor
  · rw [hres]
    exact hsimple
  · rw [hres, hsimple]
    simp only [save_weights, hglobal]
    cases hq : queryScope db (none : Option ℤ) (none : Option ℤ) with
    | some row =>
      exact queryScope_updateFirst_ne db none none _ _ _ hne
    | none =>
      exact queryScope_append_one db
        { recruiter_id := none, job_id := none,
          weights := (simple_weight_update np db feedback
            (get_weights db rid jid) lr).1, iteration_count := 1 } _ _ hne

/-- C10, witness: fallback configuration, recruiter scope `(1, None)`
requested, empty table. -/
theorem update_weights_fallback_writes_global_witness :
    (update_weights fitOnes false true [] fbTwo (some 1) none (1/10)).2 =
      save_weights [] (update_weights fitOnes false true [] fbTwo (some 1) none (1/10)).1
        none none ∧
    queryScope (update_weights fitOnes false true [] fbTwo (some 1) none (1/10)).2
        (scopeFilter (some 1) none).1 (scopeFilter (some 1) none).2 =
      queryScope [] (scopeFilter (some 1) none).1 (scopeFilter (some 1) none).2 :=
  update_weights_fallback_writes_global fitOnes false true [] fbTwo (some 1) none (1/10)
    (by simp) (by simp [fbTwo]) ⟨by simp [fbTwo], by simp [fbTwo]⟩
    (by simp [scopeFilter, truthy])

end SmartRecruiter
